import Mathlib

/-!
Verification of the hrpc core (package hrpc, file hrpc.go): the signature
classifier and the per-request dispatcher built by `Manager.Handler`.

The embedding is shallow:

* `GoType` models the reflect-visible shape of a Go type; `GoType.str`
  mirrors `reflect.Type.String()` on the shapes the classifier compares
  (pointers print as `*T`, slices as `[]T`, everything else by its name).
* `classify` mirrors the registration-time half of `Manager.Handler`
  (hrpc.go lines 82-137): the trailing-slice exclusion, the two
  `setOrPanic`-built role maps, and the payload type / pointer-flag
  extraction.  A Go `panic` is modelled as `Except.error` carrying the
  panic message.
* `dispatch` mirrors the returned `http.HandlerFunc` closure
  (hrpc.go lines 139-197).  The collaborators (`Decoder`, `Encoder`,
  `ErrorEncoder`, the handler function `f`, and the optional `Valid`
  method of the payload type) are opaque parameters; every externally
  observable action of the closure is recorded as an `Event` in order,
  and the payload instance allocated by `reflect.New` lives in an
  explicit heap (a list indexed by allocation order) so that pointer
  identity and instance freshness are expressible.
-/

namespace Hrpc

/-- Reflect-visible shape of a Go type: a named type (struct, interface,
basic type, ...), a pointer, or a slice. -/
inductive GoType where
  | named (s : String)
  | ptr (t : GoType)
  | slice (t : GoType)
deriving DecidableEq, Repr

/-- Mirrors `reflect.Type.String()` on the shapes above. -/
def GoType.str : GoType → String
  | .named s => s
  | .ptr t => "*" ++ t.str
  | .slice t => "[]" ++ t.str

/-- Mirrors the test `Kind() == reflect.Slice`. -/
def GoType.isSlice : GoType → Bool
  | .slice _ => true
  | _ => false

/-- Mirrors the test `Kind() == reflect.Ptr`. -/
def GoType.isPtr : GoType → Bool
  | .ptr _ => true
  | _ => false

/-- Mirrors `Type.Elem()` for the pointer case used in `Manager.Handler`. -/
def GoType.elem : GoType → GoType
  | .ptr t => t
  | .slice t => t
  | t => t

def strContext : String := "context.Context"
def strRequest : String := "*http.Request"
def strResponseWriter : String := "http.ResponseWriter"
def strError : String := "error"

/-- The `mapIndex` enumeration of hrpc.go. -/
inductive MapIndex where
  | miContext
  | miRequest
  | miResponseWriter
  | miAny
  | miError
deriving DecidableEq, Repr

/-- The Go `map[mapIndex]int`, as an association list (later bindings are
consed on the front; `setOrPanic` guarantees keys stay unique). -/
abbrev MIMap := List (MapIndex × Nat)

/-- Lookup `m[k]` with its `ok` flag folded into `Option`. -/
def lookupMI (m : MIMap) (k : MapIndex) : Option Nat :=
  match m.find? (fun p => p.1 == k) with
  | some p => some p.2
  | none => none

/-- Mirrors `setOrPanic` of hrpc.go: inserting a key that is already present
panics with the (single, shared) message `hrpc: duplicate input type`. -/
def setOrPanic (m : MIMap) (k : MapIndex) (v : Nat) : Except String MIMap :=
  match lookupMI m k with
  | some _ => .error "hrpc: duplicate input type"
  | none => .ok ((k, v) :: m)

/-- The `switch fi.String()` classifying one input parameter
(hrpc.go lines 101-110). -/
def inRole (t : GoType) : MapIndex :=
  if t.str = strContext then .miContext
  else if t.str = strRequest then .miRequest
  else if t.str = strResponseWriter then .miResponseWriter
  else .miAny

/-- The `switch ft.Out(i).String()` classifying one return value
(hrpc.go lines 116-122). -/
def outRole (t : GoType) : MapIndex :=
  if t.str = strError then .miError else .miAny

/-- The role-map building loop shared by `mapIn` and `mapOut`:
each element of `l` (starting at position `i`) is classified by `role`
and inserted with `setOrPanic`. -/
def buildMap (role : GoType → MapIndex) : List GoType → Nat → MIMap → Except String MIMap
  | [], _, m => .ok m
  | t :: ts, i, m =>
      match setOrPanic m (role t) i with
      | .error s => .error s
      | .ok m2 => buildMap role ts (i + 1) m2

/-- The effective input list: hrpc.go lines 96-99 drop the final parameter
before classifying it when its kind is slice (`numIn--; break`), and only
ever test the final position. -/
def effIns (ins : List GoType) : List GoType :=
  match ins.getLast? with
  | some t => if t.isSlice then ins.dropLast else ins
  | none => []

/-- The Binding Plan captured by the `http.HandlerFunc` closure:
the effective arity `numIn`, the two role maps, and the payload type
with its by-pointer flag. -/
structure Plan where
  numIn : Nat
  mapIn : MIMap
  mapOut : MIMap
  infType : Option GoType
  infPtr : Bool
deriving DecidableEq, Repr

/-- Registration-time half of `Manager.Handler` (hrpc.go lines 88-137),
applied to the parameter list and return list of the supplied function.
`Except.error s` models `panic(s)`. -/
def classify (ins outs : List GoType) : Except String Plan :=
  let eIns := effIns ins
  match buildMap inRole eIns 0 [] with
  | .error s => .error s
  | .ok mapIn =>
      match buildMap outRole outs 0 [] with
      | .error s => .error s
      | .ok mapOut =>
          let ip : Option GoType × Bool :=
            match lookupMI mapIn .miAny with
            | some i =>
                let t := eIns.getD i (.named "")
                if t.isPtr then (some t.elem, true) else (some t, false)
            | none => (none, false)
          .ok { numIn := eIns.length, mapIn := mapIn, mapOut := mapOut,
                infType := ip.1, infPtr := ip.2 }

/-- A `reflect.Value` as it can appear in the argument slice `vIn`:
the zero `Value` (never injected), the request context, the raw
`*http.Request`, the raw `http.ResponseWriter`, the pointer produced by
`reflect.New` (identified by its heap address), or a copy of a payload
value (`rfReq.Elem()` passed by value through `Call`). -/
inductive GoVal (π : Type) where
  | unset
  | ctxVal
  | reqVal
  | rwVal
  | ptrTo (addr : Nat)
  | ofVal (v : π)
deriving DecidableEq, Repr

/-- A return value of the handler function: an error-typed slot holding
`none` for a nil error, or a non-error value. -/
inductive OutVal (ε ω : Type) where
  | err (e : Option ε)
  | val (o : ω)
deriving DecidableEq, Repr

/-- Externally observable actions of one dispatch, in execution order:
the Decode collaborator invoked with the fresh instance at `addr`; the
`Valid` method invoked on the instance at `addr`; `fv.Call` reached with
the assembled argument list (the wrapped function then executes provided
`reflect.Value.Call`'s own arity check, modelled separately by
`reflectCallOk`, accepts the list); the Encoder (success) invoked with a
return value; the ErrorEncoder invoked with an error. -/
inductive Event (π ε ω : Type) where
  | decodeEv (addr : Nat)
  | validEv (addr : Nat)
  | callEv (args : List (GoVal π))
  | successEv (v : OutVal ε ω)
  | errorEv (e : ε)
deriving DecidableEq, Repr

def Event.isSuccess : Event π ε ω → Bool
  | .successEv _ => true
  | _ => false

def Event.isError : Event π ε ω → Bool
  | .errorEv _ => true
  | _ => false

def Event.isCall : Event π ε ω → Bool
  | .callEv _ => true
  | _ => false

def Event.isDecode : Event π ε ω → Bool
  | .decodeEv _ => true
  | _ => false

/-- The `Manager` struct.  `ρ` is the request type, `π` the payload type
the plan decodes into, `ε` the error type, `ω` the handler's non-error
output type, `σ` the response-writer (sink) state.  A decoder receives
the value currently pointed to by its destination pointer and returns
the value it writes plus its error; encoders transform the sink. -/
structure Manager (ρ π ε ω σ : Type) where
  Decoder : Option (ρ → π → π × Option ε) := none
  Encoder : Option (σ → ρ → OutVal ε ω → σ) := none
  ErrorEncoder : Option (σ → ρ → ε → σ) := none
  Validate : Bool := false

/-- Mirrors `Manager.decoder`: the configured decoder, or the no-op default that
returns a nil error and leaves the destination untouched. -/
def Manager.decoder (m : Manager ρ π ε ω σ) : ρ → π → π × Option ε :=
  match m.Decoder with
  | none => fun _ v => (v, none)
  | some d => d

/-- Mirrors `Manager.encoder`: the configured encoder, or the no-op default that
performs no writes. -/
def Manager.encoder (m : Manager ρ π ε ω σ) : σ → ρ → OutVal ε ω → σ :=
  match m.Encoder with
  | none => fun w _ _ => w
  | some e => e

/-- Mirrors `Manager.errorEncoder`: the configured error encoder, or the no-op
default that performs no writes. -/
def Manager.errorEncoder (m : Manager ρ π ε ω σ) : σ → ρ → ε → σ :=
  match m.ErrorEncoder with
  | none => fun w _ _ => w
  | some e => e

/-- Result of one dispatch: the event trace, the final heap and the final
sink state. -/
structure DispatchResult (π ε ω σ : Type) where
  events : List (Event π ε ω)
  heap : List π
  sink : σ

/-- The `m.Validate` / `req.(Validatable)` step: when validation is
enabled on the manager and the payload type exposes a `Valid` method
(`validOf = some vf`, receiving the current instance value and returning
the possibly mutated value plus the validation error), run it.  The
third component records whether the method ran. -/
def runValidate (validate : Bool) (validOf : Option (π → π × Option ε)) (v : π) :
    π × Option ε × Bool :=
  match (if validate then validOf else none) with
  | some vf => ((vf v).1, (vf v).2, true)
  | none => (v, none, false)

/-- Injection of the raw request and raw response writer into the
argument slice (hrpc.go lines 172-179). -/
def injectRR (plan : Plan) (vIn : List (GoVal π)) : List (GoVal π) :=
  let vIn2 :=
    match lookupMI plan.mapIn .miRequest with
    | some i => vIn.set i .reqVal
    | none => vIn
  match lookupMI plan.mapIn .miResponseWriter with
  | some i => vIn2.set i .rwVal
  | none => vIn2

/-- Output routing (hrpc.go lines 183-194, response half): if the plan
has a non-error output slot, invoke the success encoder with that return
value; otherwise encode nothing. -/
def checkResponse (plan : Plan) (m : Manager ρ π ε ω σ) (r : ρ)
    (vOut : List (OutVal ε ω)) (evs : List (Event π ε ω)) (heap : List π) (w : σ) :
    DispatchResult π ε ω σ :=
  match lookupMI plan.mapOut .miAny with
  | some i =>
      ⟨evs ++ [.successEv (vOut.getD i (.err none))], heap,
        m.encoder w r (vOut.getD i (.err none))⟩
  | none => ⟨evs, heap, w⟩

/-- Tail of the dispatch closure after the payload step: inject the raw
request and response writer, call the handler (`fv.Call(vIn)`), route a
non-nil error return to the error encoder, otherwise route the non-error
return to the success encoder (hrpc.go lines 172-194).  The application
`f args` models the execution of the wrapped function under the proviso
that `reflect.Value.Call` accepts the argument count for the function's
true arity and variadicity (see `reflectCallOk`); when that check fails
in Go, `Call` panics at the point recorded by the `callEv` event and
nothing after it runs. -/
def dispatchRest (plan : Plan) (m : Manager ρ π ε ω σ)
    (f : List (GoVal π) → List (OutVal ε ω)) (r : ρ)
    (vIn : List (GoVal π)) (evs : List (Event π ε ω)) (heap : List π) (w : σ) :
    DispatchResult π ε ω σ :=
  let args := injectRR plan vIn
  let vOut := f args
  let evs2 := evs ++ [.callEv args]
  match lookupMI plan.mapOut .miError with
  | some i =>
      match vOut.getD i (.err none) with
      | .err (some e) => ⟨evs2 ++ [.errorEv e], heap, m.errorEncoder w r e⟩
      | _ => checkResponse plan m r vOut evs2 heap w
  | none => checkResponse plan m r vOut evs2 heap w

/-- The per-request dispatch closure returned by `Manager.Handler`
(hrpc.go lines 139-197).  `zero` is the zero value of the payload type
(`reflect.New` allocates it at address `heap.length`), `validOf` the
optional `Valid` method of the payload type, `f` the handler function,
`r` the request, `heap` the allocation state, `w` the response sink. -/
def dispatch (plan : Plan) (m : Manager ρ π ε ω σ) (zero : π)
    (validOf : Option (π → π × Option ε))
    (f : List (GoVal π) → List (OutVal ε ω))
    (r : ρ) (heap : List π) (w : σ) : DispatchResult π ε ω σ :=
  let vIn : List (GoVal π) := List.replicate plan.numIn .unset
  let vIn2 :=
    match lookupMI plan.mapIn .miContext with
    | some i => vIn.set i .ctxVal
    | none => vIn
  match lookupMI plan.mapIn .miAny with
  | some i =>
      let addr := heap.length
      match m.decoder r zero with
      | (v1, some e) =>
          ⟨[.decodeEv addr, .errorEv e], (heap ++ [zero]).set addr v1,
            m.errorEncoder w r e⟩
      | (v1, none) =>
          match runValidate m.Validate validOf v1 with
          | (v2, some e, b) =>
              ⟨[.decodeEv addr] ++ (if b then [.validEv addr] else []) ++ [.errorEv e],
                ((heap ++ [zero]).set addr v1).set addr v2, m.errorEncoder w r e⟩
          | (v2, none, b) =>
              dispatchRest plan m f r
                (vIn2.set i (if plan.infPtr then .ptrTo addr else .ofVal v2))
                ([.decodeEv addr] ++ (if b then [.validEv addr] else []))
                (((heap ++ [zero]).set addr v1).set addr v2) w
  | none => dispatchRest plan m f r vIn2 [] heap w

/-- Mirrors the argument-count check `reflect.Value.Call` performs before
the wrapped function body runs (reflect/value.go): with `numIn` the
declared `NumIn()` of the function type, a non-variadic function
requires exactly `numIn` arguments and a variadic one at least
`numIn - 1`; otherwise `Call` panics ("reflect: Call with too few/too
many input arguments") and the function is never invoked.  `dispatch`
records reaching `fv.Call(vIn)` as a `callEv`; whether the wrapped
function actually executes in Go additionally requires this check to
pass for the function's true arity and variadicity, which the
string-based classifier cannot observe. -/
def reflectCallOk (numIn : Nat) (isVariadic : Bool) (nargs : Nat) : Bool :=
  if isVariadic then decide (numIn - 1 ≤ nargs) else decide (nargs = numIn)

/-- Fixture: the plan the classifier builds for the signature
`func(ctx context.Context, req *hrpc.requestType) (*hrpc.responseType, error)`
used throughout hrpc_test.go. -/
def planPtr : Plan :=
  { numIn := 2, mapIn := [(.miAny, 1), (.miContext, 0)],
    mapOut := [(.miError, 1), (.miAny, 0)],
    infType := some (.named "hrpc.requestType"), infPtr := true }

/-- Fixture: the plan for the same handler taking its payload by value. -/
def planVal : Plan := { planPtr with infPtr := false }

/-- Fixture: a manager whose decoder always fails with error 7 and whose
error encoder adds the error to the sink. -/
def mDecodeFail : Manager Nat Nat Nat Nat Nat :=
  { Decoder := some (fun _ _ => (1, some 7)),
    ErrorEncoder := some (fun w _ e => w + e) }

/-- Fixture: a validating manager whose decoder succeeds with value 3. -/
def mDecodeOk : Manager Nat Nat Nat Nat Nat :=
  { Decoder := some (fun _ _ => (3, none)), Validate := true,
    ErrorEncoder := some (fun w _ e => w + e) }

/-! ### Association-map lemmas -/

theorem lookupMI_nil (k : MapIndex) : lookupMI [] k = none := rfl

theorem lookupMI_cons (k k2 : MapIndex) (v : Nat) (m : MIMap) :
    lookupMI ((k, v) :: m) k2 = if k = k2 then some v else lookupMI m k2 := by
  by_cases h : k = k2
  · subst h
    simp [lookupMI, List.find?_cons_of_pos]
  · simp only [lookupMI, if_neg h]
    rw [List.find?_cons_of_neg]
    simp [h]

theorem setOrPanic_ok {m : MIMap} {k : MapIndex} {v : Nat} {m2 : MIMap}
    (h : setOrPanic m k v = .ok m2) : m2 = (k, v) :: m ∧ lookupMI m k = none := by
  unfold setOrPanic at h
  cases hl : lookupMI m k <;> rw [hl] at h <;> simp_all

theorem setOrPanic_error {m : MIMap} {k : MapIndex} {v : Nat} {s : String}
    (h : setOrPanic m k v = .error s) :
    s = "hrpc: duplicate input type" ∧ (lookupMI m k).isSome = true := by
  unfold setOrPanic at h
  cases hl : lookupMI m k <;> rw [hl] at h <;> simp_all

theorem setOrPanic_error_of_isSome {m : MIMap} {k : MapIndex} (v : Nat)
    (h : (lookupMI m k).isSome = true) :
    setOrPanic m k v = .error "hrpc: duplicate input type" := by
  unfold setOrPanic
  cases hl : lookupMI m k <;> simp_all

/-! ### buildMap lemmas -/

theorem buildMap_error_msg {role : GoType → MapIndex} {l : List GoType} :
    ∀ {i : Nat} {m : MIMap} {s : String}, buildMap role l i m = .error s →
      s = "hrpc: duplicate input type" := by
  induction l with
  | nil => intro i m s h; simp [buildMap] at h
  | cons t ts ih =>
      intro i m s h
      unfold buildMap at h
      cases hsp : setOrPanic m (role t) i with
      | error s2 =>
          rw [hsp] at h
          cases h
          exact (setOrPanic_error hsp).1
      | ok m2 =>
          rw [hsp] at h
          exact ih h

theorem buildMap_error_of_mem {role : GoType → MapIndex} {l : List GoType} :
    ∀ {i : Nat} {m : MIMap} {k : MapIndex}, (lookupMI m k).isSome = true →
      k ∈ l.map role → buildMap role l i m = .error "hrpc: duplicate input type" := by
  induction l with
  | nil => intro i m k _ hk; simp at hk
  | cons t ts ih =>
      intro i m k hs hk
      unfold buildMap
      cases hsp : setOrPanic m (role t) i with
      | error s2 =>
          have hmsg := (setOrPanic_error hsp).1
          simp [hmsg]
      | ok m2 =>
          obtain ⟨hm2, hnone⟩ := setOrPanic_ok hsp
          have hkt : k ≠ role t := by
            intro he
            rw [he, hnone] at hs
            simp at hs
          have hk2 : k ∈ ts.map role := by
            simp only [List.map_cons, List.mem_cons] at hk
            rcases hk with h1 | h2
            · exact absurd h1 hkt
            · exact h2
          have hs2 : (lookupMI m2 k).isSome = true := by
            subst hm2
            rw [lookupMI_cons, if_neg (fun h => hkt h.symm)]
            exact hs
          exact ih hs2 hk2

theorem buildMap_error_of_not_nodup {role : GoType → MapIndex} {l : List GoType} :
    ∀ {i : Nat} {m : MIMap}, ¬ (l.map role).Nodup →
      buildMap role l i m = .error "hrpc: duplicate input type" := by
  induction l with
  | nil => intro i m h; simp at h
  | cons t ts ih =>
      intro i m h
      unfold buildMap
      cases hsp : setOrPanic m (role t) i with
      | error s2 =>
          have hmsg := (setOrPanic_error hsp).1
          simp [hmsg]
      | ok m2 =>
          obtain ⟨hm2, hnone⟩ := setOrPanic_ok hsp
          by_cases hmem : role t ∈ ts.map role
          · refine buildMap_error_of_mem ?_ hmem
            subst hm2
            rw [lookupMI_cons, if_pos rfl]
            rfl
          · have hnd : ¬ (ts.map role).Nodup := by
              intro hnd
              exact h (by simp only [List.map_cons, List.nodup_cons]; exact ⟨hmem, hnd⟩)
            exact ih hnd

theorem buildMap_ok_lookup {role : GoType → MapIndex} {l : List GoType} :
    ∀ {i : Nat} {m m2 : MIMap} {k : MapIndex} {j : Nat},
      buildMap role l i m = .ok m2 → lookupMI m2 k = some j →
      lookupMI m k = some j ∨ (k ∈ l.map role ∧ i ≤ j ∧ j < i + l.length) := by
  induction l with
  | nil =>
      intro i m m2 k j h hj
      unfold buildMap at h
      cases h
      exact Or.inl hj
  | cons t ts ih =>
      intro i m m2 k j h hj
      unfold buildMap at h
      cases hsp : setOrPanic m (role t) i with
      | error s => rw [hsp] at h; cases h
      | ok m1 =>
          rw [hsp] at h
          obtain ⟨hm1, hnone⟩ := setOrPanic_ok hsp
          rcases ih h hj with h1 | ⟨hmem, hle, hlt⟩
          · subst hm1
            rw [lookupMI_cons] at h1
            by_cases hk : role t = k
            · rw [if_pos hk] at h1
              have hij : i = j := by injection h1
              refine Or.inr ⟨?_, by omega, by simp only [List.length_cons]; omega⟩
              rw [← hk]
              simp
            · rw [if_neg hk] at h1
              exact Or.inl h1
          · refine Or.inr ⟨?_, by omega, by simp only [List.length_cons]; omega⟩
            simp only [List.map_cons, List.mem_cons]
            exact Or.inr hmem

theorem buildMap_ok_lookup_not_mem {role : GoType → MapIndex} {l : List GoType} :
    ∀ {i : Nat} {m m2 : MIMap} {k : MapIndex},
      buildMap role l i m = .ok m2 → k ∉ l.map role →
      lookupMI m2 k = lookupMI m k := by
  induction l with
  | nil =>
      intro i m m2 k h _
      unfold buildMap at h
      cases h
      rfl
  | cons t ts ih =>
      intro i m m2 k h hk
      unfold buildMap at h
      cases hsp : setOrPanic m (role t) i with
      | error s => rw [hsp] at h; cases h
      | ok m1 =>
          rw [hsp] at h
          obtain ⟨hm1, hnone⟩ := setOrPanic_ok hsp
          simp only [List.map_cons, List.mem_cons, not_or] at hk
          rw [ih h hk.2]
          subst hm1
          rw [lookupMI_cons, if_neg (fun he => hk.1 he.symm)]

/-! ### classify lemmas -/

theorem classify_error_of_in_dup {ins outs : List GoType}
    (h : ¬ ((effIns ins).map inRole).Nodup) :
    classify ins outs = .error "hrpc: duplicate input type" := by
  simp only [classify, buildMap_error_of_not_nodup h]

theorem classify_error_of_out_dup {ins outs : List GoType}
    (h : ¬ (outs.map outRole).Nodup) :
    classify ins outs = .error "hrpc: duplicate input type" := by
  simp only [classify]
  cases hin : buildMap inRole (effIns ins) 0 [] with
  | error s => simp [buildMap_error_msg hin]
  | ok mIn => simp [buildMap_error_of_not_nodup h]

theorem classify_ok_parts {ins outs : List GoType} {p : Plan}
    (h : classify ins outs = .ok p) :
    ∃ mIn mOut, buildMap inRole (effIns ins) 0 [] = .ok mIn
      ∧ buildMap outRole outs 0 [] = .ok mOut
      ∧ p.mapIn = mIn ∧ p.mapOut = mOut ∧ p.numIn = (effIns ins).length := by
  simp only [classify] at h
  cases hin : buildMap inRole (effIns ins) 0 [] with
  | error s => rw [hin] at h; cases h
  | ok mIn =>
      rw [hin] at h
      cases hout : buildMap outRole outs 0 [] with
      | error s => rw [hout] at h; cases h
      | ok mOut =>
          rw [hout] at h
          cases h
          exact ⟨mIn, mOut, rfl, rfl, rfl, rfl, rfl⟩

/-! ### dispatch lemmas -/

theorem getD_set_ne {α : Type} (l : List α) (i j : Nat) (a d : α) (h : i ≠ j) :
    (l.set i a).getD j d = l.getD j d := by
  simp [List.getD_eq_getD_get?, List.get?_eq_getElem?, List.getElem?_set_ne h]

theorem injectRR_length (plan : Plan) (vIn : List (GoVal π)) :
    (injectRR plan vIn).length = vIn.length := by
  unfold injectRR
  cases lookupMI plan.mapIn .miRequest <;>
    cases lookupMI plan.mapIn .miResponseWriter <;>
    simp [List.length_set]

theorem injectRR_getD (plan : Plan) (vIn : List (GoVal π)) (j : Nat) (d : GoVal π)
    (h1 : lookupMI plan.mapIn .miRequest ≠ some j)
    (h2 : lookupMI plan.mapIn .miResponseWriter ≠ some j) :
    (injectRR plan vIn).getD j d = vIn.getD j d := by
  unfold injectRR
  cases hr : lookupMI plan.mapIn .miRequest with
  | none =>
      cases hw : lookupMI plan.mapIn .miResponseWriter with
      | none => rfl
      | some iw =>
          have hiwj : iw ≠ j := fun he => h2 (by rw [hw, he])
          show (vIn.set iw GoVal.rwVal).getD j d = vIn.getD j d
          exact getD_set_ne _ _ _ _ _ hiwj
  | some ir =>
      have hirj : ir ≠ j := fun he => h1 (by rw [hr, he])
      cases hw : lookupMI plan.mapIn .miResponseWriter with
      | none =>
          show (vIn.set ir GoVal.reqVal).getD j d = vIn.getD j d
          exact getD_set_ne _ _ _ _ _ hirj
      | some iw =>
          have hiwj : iw ≠ j := fun he => h2 (by rw [hw, he])
          show ((vIn.set ir GoVal.reqVal).set iw GoVal.rwVal).getD j d = vIn.getD j d
          rw [getD_set_ne _ _ _ _ _ hiwj, getD_set_ne _ _ _ _ _ hirj]

theorem dispatchRest_spec (plan : Plan) (m : Manager ρ π ε ω σ)
    (f : List (GoVal π) → List (OutVal ε ω)) (r : ρ)
    (vIn : List (GoVal π)) (evs : List (Event π ε ω)) (heap : List π) (w : σ) :
    ∃ tail,
      (dispatchRest plan m f r vIn evs heap w).events
        = evs ++ Event.callEv (injectRR plan vIn) :: tail
      ∧ (dispatchRest plan m f r vIn evs heap w).heap = heap
      ∧ (tail = [] ∧ (dispatchRest plan m f r vIn evs heap w).sink = w
         ∨ (∃ e, tail = [Event.errorEv e]
             ∧ (dispatchRest plan m f r vIn evs heap w).sink = m.errorEncoder w r e)
         ∨ (∃ v, tail = [Event.successEv v]
             ∧ (dispatchRest plan m f r vIn evs heap w).sink = m.encoder w r v)) := by
  cases he : lookupMI plan.mapOut .miError with
  | some i =>
      cases hv : (f (injectRR plan vIn)).getD i (OutVal.err none) with
      | err oe =>
          cases oe with
          | some e =>
              refine ⟨[Event.errorEv e], ?_, ?_, Or.inr (Or.inl ⟨e, rfl, ?_⟩)⟩ <;>
                ((simp only [dispatchRest, he]; rw [hv]) <;> simp)
          | none =>
              cases ha : lookupMI plan.mapOut .miAny with
              | some io =>
                  refine ⟨[Event.successEv ((f (injectRR plan vIn)).getD io (OutVal.err none))],
                    ?_, ?_, Or.inr (Or.inr ⟨_, rfl, ?_⟩)⟩ <;>
                    (simp only [dispatchRest, he]; rw [hv]; simp [checkResponse, ha])
              | none =>
                  refine ⟨[], ?_, ?_, Or.inl ⟨rfl, ?_⟩⟩ <;>
                    (simp only [dispatchRest, he]; rw [hv]; simp [checkResponse, ha])
      | val o =>
          cases ha : lookupMI plan.mapOut .miAny with
          | some io =>
              refine ⟨[Event.successEv ((f (injectRR plan vIn)).getD io (OutVal.err none))],
                ?_, ?_, Or.inr (Or.inr ⟨_, rfl, ?_⟩)⟩ <;>
                (simp only [dispatchRest, he]; rw [hv]; simp [checkResponse, ha])
          | none =>
              refine ⟨[], ?_, ?_, Or.inl ⟨rfl, ?_⟩⟩ <;>
                (simp only [dispatchRest, he]; rw [hv]; simp [checkResponse, ha])
  | none =>
      cases ha : lookupMI plan.mapOut .miAny with
      | some io =>
          refine ⟨[Event.successEv ((f (injectRR plan vIn)).getD io (OutVal.err none))],
            ?_, ?_, Or.inr (Or.inr ⟨_, rfl, ?_⟩)⟩ <;>
            simp [dispatchRest, checkResponse, he, ha]
      | none =>
          refine ⟨[], ?_, ?_, Or.inl ⟨rfl, ?_⟩⟩ <;>
            simp [dispatchRest, checkResponse, he, ha]

theorem getD_set_self {α : Type} (l : List α) (i : Nat) (a d : α) (h : i < l.length) :
    (l.set i a).getD i d = a := by
  simp [List.getD_eq_getD_get?, List.get?_eq_getElem?, List.getElem?_set_eq_of_lt a h]

theorem set_append_singleton {α : Type} (l : List α) (a b : α) :
    (l ++ [a]).set l.length b = l ++ [b] := by
  induction l with
  | nil => rfl
  | cons x xs ih =>
      show x :: (xs ++ [a]).set xs.length b = x :: (xs ++ [b])
      rw [ih]

theorem not_nodup_of_getD_eq {α : Type} (l : List α) (d : α) (i j : Nat)
    (hij : i < j) (hj : j < l.length) (he : l.getD i d = l.getD j d) : ¬ l.Nodup := by
  intro hnd
  have hi : i < l.length := lt_trans hij hj
  rw [List.getD_eq_getElem l d hi, List.getD_eq_getElem l d hj] at he
  have := hnd.getElem_inj_iff.mp he
  omega

theorem dispatchRest_call_mem (plan : Plan) (m : Manager ρ π ε ω σ)
    (f : List (GoVal π) → List (OutVal ε ω)) (r : ρ)
    (vIn : List (GoVal π)) (evs : List (Event π ε ω)) (heap : List π) (w : σ)
    (args : List (GoVal π))
    (hno : Event.callEv args ∉ evs)
    (h : Event.callEv args ∈ (dispatchRest plan m f r vIn evs heap w).events) :
    args = injectRR plan vIn := by
  obtain ⟨tail, hev, _, hcase⟩ := dispatchRest_spec plan m f r vIn evs heap w
  rw [hev] at h
  rcases List.mem_append.mp h with h1 | h2
  · exact absurd h1 hno
  · rcases List.mem_cons.mp h2 with he2 | ht
    · exact (Event.callEv.injEq _ _).mp he2
    · rcases hcase with ⟨rfl, _⟩ | ⟨e, rfl, _⟩ | ⟨v, rfl, _⟩ <;> simp at ht

theorem dispatchRest_countP_isDecode (plan : Plan) (m : Manager ρ π ε ω σ)
    (f : List (GoVal π) → List (OutVal ε ω)) (r : ρ)
    (vIn : List (GoVal π)) (evs : List (Event π ε ω)) (heap : List π) (w : σ) :
    ((dispatchRest plan m f r vIn evs heap w).events).countP Event.isDecode
      = evs.countP Event.isDecode := by
  obtain ⟨tail, hev, _, hcase⟩ := dispatchRest_spec plan m f r vIn evs heap w
  rw [hev]
  rcases hcase with ⟨rfl, _⟩ | ⟨e, rfl, _⟩ | ⟨v, rfl, _⟩ <;>
    simp [List.countP_append, List.countP_cons, Event.isDecode]

theorem dispatchRest_counts (plan : Plan) (m : Manager ρ π ε ω σ)
    (f : List (GoVal π) → List (OutVal ε ω)) (r : ρ)
    (vIn : List (GoVal π)) (evs : List (Event π ε ω)) (heap : List π) (w : σ) :
    ((dispatchRest plan m f r vIn evs heap w).events).countP Event.isSuccess
      + ((dispatchRest plan m f r vIn evs heap w).events).countP Event.isError
      ≤ evs.countP Event.isSuccess + evs.countP Event.isError + 1 := by
  obtain ⟨tail, hev, _, hcase⟩ := dispatchRest_spec plan m f r vIn evs heap w
  rw [hev]
  rcases hcase with ⟨rfl, _⟩ | ⟨e, rfl, _⟩ | ⟨v, rfl, _⟩ <;>
    simp [List.countP_append, List.countP_cons, Event.isSuccess, Event.isError] <;>
    omega

theorem dispatchRest_spec_getD (plan : Plan) (m : Manager ρ π ε ω σ)
    (f : List (GoVal π) → List (OutVal ε ω)) (r : ρ)
    (vIn : List (GoVal π)) (evs : List (Event π ε ω)) (heap : List π) (w : σ)
    (i : Nat) (x : GoVal π)
    (hreq : lookupMI plan.mapIn .miRequest ≠ some i)
    (hrw : lookupMI plan.mapIn .miResponseWriter ≠ some i)
    (hx : vIn.getD i .unset = x) :
    ∃ args tail, (dispatchRest plan m f r vIn evs heap w).events
        = evs ++ Event.callEv args :: tail
      ∧ args.getD i .unset = x := by
  obtain ⟨tail, hev, _, _⟩ := dispatchRest_spec plan m f r vIn evs heap w
  refine ⟨injectRR plan vIn, tail, hev, ?_⟩
  rw [injectRR_getD plan vIn i _ hreq hrw]
  exact hx

/-- Shape of a dispatch when the plan has a payload-in slot: the trace
starts with the decode of the fresh instance at address `heap.length`,
contains no other decode event, and the heap has grown by exactly the
one fresh instance. -/
theorem dispatch_payload_shape (plan : Plan) (m : Manager ρ π ε ω σ) (zero : π)
    (validOf : Option (π → π × Option ε)) (f : List (GoVal π) → List (OutVal ε ω))
    (r : ρ) (heap : List π) (w : σ) (i : Nat)
    (hi : lookupMI plan.mapIn .miAny = some i) :
    ∃ rest, (dispatch plan m zero validOf f r heap w).events
        = Event.decodeEv heap.length :: rest
      ∧ rest.countP Event.isDecode = 0
      ∧ (dispatch plan m zero validOf f r heap w).heap.length = heap.length + 1 := by
  rcases hd : m.decoder r zero with ⟨v1, derr⟩
  cases derr with
  | some e =>
      refine ⟨[Event.errorEv e], ?_, ?_, ?_⟩
      · simp only [dispatch, hi]
        rw [hd]
      · simp [Event.isDecode]
      · simp only [dispatch, hi]
        rw [hd]
        simp
  | none =>
      rcases hrv : runValidate m.Validate validOf v1 with ⟨v2, verr, b⟩
      cases verr with
      | some e =>
          refine ⟨(if b then [Event.validEv heap.length] else []) ++ [Event.errorEv e],
            ?_, ?_, ?_⟩
          · cases b <;> (simp only [dispatch, hi]; rw [hd]; simp [hrv])
          · cases b <;> simp [Event.isDecode, List.countP_append, List.countP_cons]
          · cases b <;> (simp only [dispatch, hi]; rw [hd]; simp [hrv])
      | none =>
          have hvin :
              (dispatch plan m zero validOf f r heap w)
                = dispatchRest plan m f r
                    ((match lookupMI plan.mapIn .miContext with
                      | some j => (List.replicate plan.numIn GoVal.unset).set j GoVal.ctxVal
                      | none => List.replicate plan.numIn GoVal.unset).set i
                      (if plan.infPtr then GoVal.ptrTo heap.length else GoVal.ofVal v2))
                    ([Event.decodeEv heap.length]
                      ++ (if b then [Event.validEv heap.length] else []))
                    (((heap ++ [zero]).set heap.length v1).set heap.length v2) w := by
            simp only [dispatch, hi]
            rw [hd]
            simp [hrv]
          rw [hvin]
          generalize ((match lookupMI plan.mapIn .miContext with
              | some j => (List.replicate plan.numIn GoVal.unset).set j GoVal.ctxVal
              | none => List.replicate plan.numIn GoVal.unset).set i
              (if plan.infPtr then GoVal.ptrTo heap.length else GoVal.ofVal v2)) = vin
          obtain ⟨tail, hev, hh, _⟩ := dispatchRest_spec plan m f r vin
            ([Event.decodeEv heap.length] ++ (if b then [Event.validEv heap.length] else []))
            (((heap ++ [zero]).set heap.length v1).set heap.length v2) w
          refine ⟨(if b then [Event.validEv heap.length] else [])
              ++ Event.callEv (injectRR plan vin) :: tail, ?_, ?_, ?_⟩
          · rw [hev]
            cases b <;> simp
          · have hc := dispatchRest_countP_isDecode plan m f r vin
              ([Event.decodeEv heap.length] ++ (if b then [Event.validEv heap.length] else []))
              (((heap ++ [zero]).set heap.length v1).set heap.length v2) w
            rw [hev] at hc
            cases b <;>
              simp_all [List.countP_append, List.countP_cons, Event.isDecode]
          · rw [hh]
            simp

/-- Shape of a dispatch when the plan has no payload-in slot: the Decode
collaborator is never invoked and the heap is unchanged. -/
theorem dispatch_no_payload_shape (plan : Plan) (m : Manager ρ π ε ω σ) (zero : π)
    (validOf : Option (π → π × Option ε)) (f : List (GoVal π) → List (OutVal ε ω))
    (r : ρ) (heap : List π) (w : σ)
    (hi : lookupMI plan.mapIn .miAny = none) :
    ((dispatch plan m zero validOf f r heap w).events).countP Event.isDecode = 0
    ∧ (dispatch plan m zero validOf f r heap w).heap = heap := by
  constructor
  · simp only [dispatch, hi]
    rw [dispatchRest_countP_isDecode]
    rfl
  · simp only [dispatch, hi]
    obtain ⟨tail, _, hh, _⟩ := dispatchRest_spec plan m f r _ ([] : List (Event π ε ω)) heap w
    exact hh

/-- Every handler call in a dispatch receives an argument list of length
exactly `plan.numIn` (the effective arity). -/
theorem dispatch_call_length (plan : Plan) (m : Manager ρ π ε ω σ) (zero : π)
    (validOf : Option (π → π × Option ε)) (f : List (GoVal π) → List (OutVal ε ω))
    (r : ρ) (heap : List π) (w : σ) (args : List (GoVal π))
    (h : Event.callEv args ∈ (dispatch plan m zero validOf f r heap w).events) :
    args.length = plan.numIn := by
  cases hAny : lookupMI plan.mapIn .miAny with
  | none =>
      simp only [dispatch, hAny] at h
      have harg := dispatchRest_call_mem _ _ _ _ _ _ _ _ _ (by simp) h
      rw [harg, injectRR_length]
      cases hctx : lookupMI plan.mapIn .miContext <;> simp
  | some i =>
      rcases hd : m.decoder r zero with ⟨v1, derr⟩
      cases derr with
      | some e =>
          simp only [dispatch, hAny] at h
          rw [hd] at h
          simp at h
      | none =>
          rcases hrv : runValidate m.Validate validOf v1 with ⟨v2, verr, b⟩
          cases verr with
          | some e =>
              simp only [dispatch, hAny] at h
              rw [hd] at h
              cases b <;> simp [hrv] at h
          | none =>
              simp only [dispatch, hAny] at h
              rw [hd] at h
              simp only [hrv] at h
              have harg := dispatchRest_call_mem _ _ _ _ _ _ _ _ _
                (by cases b <;> simp) h
              rw [harg, injectRR_length, List.length_set]
              cases hctx : lookupMI plan.mapIn .miContext <;> simp

/-! ### Claim theorems -/

theorem classify_planPtr :
    classify [.named "context.Context", .ptr (.named "hrpc.requestType")]
      [.ptr (.named "hrpc.responseType"), .named "error"] = .ok planPtr := by
  rfl

theorem classify_planVal :
    classify [.named "context.Context", .named "hrpc.requestType"]
      [.ptr (.named "hrpc.responseType"), .named "error"] = .ok planVal := by
  rfl

/-- C1: for every plan and every single dispatched request, the success
encoder and the error encoder fire at most once in total: the outcome is
exactly one of {EncodeSuccess fired, EncodeError fired, neither fired},
never both, and EncodeError fires at most once. -/
theorem dispatch_encode_exclusive (plan : Plan) (m : Manager ρ π ε ω σ) (zero : π)
    (validOf : Option (π → π × Option ε)) (f : List (GoVal π) → List (OutVal ε ω))
    (r : ρ) (heap : List π) (w : σ) :
    ((dispatch plan m zero validOf f r heap w).events).countP Event.isSuccess
      + ((dispatch plan m zero validOf f r heap w).events).countP Event.isError ≤ 1 := by
  cases hAny : lookupMI plan.mapIn .miAny with
  | none =>
      simp only [dispatch, hAny]
      refine le_trans (dispatchRest_counts _ _ _ _ _ _ _ _) ?_
      simp
  | some i =>
      rcases hd : m.decoder r zero with ⟨v1, derr⟩
      cases derr with
      | some e =>
          simp only [dispatch, hAny]
          rw [hd]
          simp [Event.isSuccess, Event.isError, List.countP_cons]
      | none =>
          rcases hrv : runValidate m.Validate validOf v1 with ⟨v2, verr, b⟩
          cases verr with
          | some e =>
              simp only [dispatch, hAny]
              rw [hd]
              cases b <;> simp [hrv, Event.isSuccess, Event.isError,
                List.countP_append, List.countP_cons]
          | none =>
              simp only [dispatch, hAny]
              rw [hd]
              simp only [hrv]
              refine le_trans (dispatchRest_counts _ _ _ _ _ _ _ _) ?_
              cases b <;> simp [Event.isSuccess, Event.isError,
                List.countP_append, List.countP_cons]

/-- C2: when the plan has a payload-in slot and the Decode collaborator
returns a non-nil error, the dispatch trace is exactly the decode of the
fresh instance followed by EncodeError with that same decode error: the
`Valid` method never runs, the handler function is never invoked, and
EncodeSuccess never fires. -/
theorem dispatch_decode_error_stops (plan : Plan) (m : Manager ρ π ε ω σ) (zero : π)
    (validOf : Option (π → π × Option ε)) (f : List (GoVal π) → List (OutVal ε ω))
    (r : ρ) (heap : List π) (w : σ) (i : Nat) (v1 : π) (e : ε)
    (hi : lookupMI plan.mapIn .miAny = some i)
    (hd : m.decoder r zero = (v1, some e)) :
    (dispatch plan m zero validOf f r heap w).events
        = [Event.decodeEv heap.length, Event.errorEv e]
    ∧ (dispatch plan m zero validOf f r heap w).sink = m.errorEncoder w r e := by
  constructor <;> (simp only [dispatch, hi]; rw [hd])

/-- Witness for C2: a failing decoder on the test-suite plan. -/
theorem dispatch_decode_error_stops_witness :
    lookupMI planPtr.mapIn .miAny = some 1
    ∧ mDecodeFail.decoder 0 0 = (1, some 7)
    ∧ (dispatch planPtr mDecodeFail 0 none (fun _ => []) 0 [] 100).events
        = [Event.decodeEv 0, Event.errorEv 7]
    ∧ (dispatch planPtr mDecodeFail 0 none (fun _ => []) 0 [] 100).sink
        = mDecodeFail.errorEncoder 100 0 7 :=
  ⟨by decide, by decide,
    dispatch_decode_error_stops planPtr mDecodeFail 0 none (fun _ => []) 0 [] 100 1 1 7
      (by decide) (by decide)⟩

/-- C3: when validation is enabled on the manager, the decoded payload
type exposes the `Valid` capability, decode succeeds, and `Valid` returns
a non-nil error, the dispatch trace is exactly decode, then the
validation of the same instance, then EncodeError with that validation
error: the handler function is never invoked and EncodeSuccess never
fires.  The trace order shows `Valid` runs after decode succeeds and
before any handler call. -/
theorem dispatch_validate_error_stops (plan : Plan) (m : Manager ρ π ε ω σ) (zero : π)
    (vf : π → π × Option ε) (f : List (GoVal π) → List (OutVal ε ω))
    (r : ρ) (heap : List π) (w : σ) (i : Nat) (v1 v2 : π) (e : ε)
    (hi : lookupMI plan.mapIn .miAny = some i)
    (hV : m.Validate = true)
    (hd : m.decoder r zero = (v1, none))
    (hvf : vf v1 = (v2, some e)) :
    (dispatch plan m zero (some vf) f r heap w).events
        = [Event.decodeEv heap.length, Event.validEv heap.length, Event.errorEv e]
    ∧ (dispatch plan m zero (some vf) f r heap w).sink = m.errorEncoder w r e := by
  have hrv : runValidate m.Validate (some vf) v1 = (v2, some e, true) := by
    simp [runValidate, hV, hvf]
  constructor <;> (simp only [dispatch, hi]; rw [hd]; simp [hrv])

/-- Witness for C3: a validator that rejects the decoded value 3 with
error 9 on the test-suite plan. -/
theorem dispatch_validate_error_stops_witness :
    lookupMI planPtr.mapIn .miAny = some 1
    ∧ mDecodeOk.Validate = true
    ∧ mDecodeOk.decoder 0 0 = (3, none)
    ∧ (fun v => (v, some (v + 6)) : Nat → Nat × Option Nat) 3 = (3, some 9)
    ∧ (dispatch planPtr mDecodeOk 0 (some fun v => (v, some (v + 6)))
          (fun _ => []) 0 [] 100).events
        = [Event.decodeEv 0, Event.validEv 0, Event.errorEv 9]
    ∧ (dispatch planPtr mDecodeOk 0 (some fun v => (v, some (v + 6)))
          (fun _ => []) 0 [] 100).sink = mDecodeOk.errorEncoder 100 0 9 :=
  ⟨by decide, by decide, by decide, by decide,
    dispatch_validate_error_stops planPtr mDecodeOk 0 (fun v => (v, some (v + 6)))
      (fun _ => []) 0 [] 100 1 3 3 9 (by decide) (by decide) (by decide) (by decide)⟩

/-- A slice-typed parameter in a classified (non-excluded) position falls
through every named-carrier case of the switch: its `String()` starts
with the two bracket characters, so it classifies to the default role. -/
theorem inRole_slice (u : GoType) : inRole (GoType.slice u) = MapIndex.miAny := by
  have hstr : (GoType.slice u).str = "[]" ++ u.str := rfl
  unfold inRole
  rw [hstr]
  have h1 : ("[]" ++ u.str) ≠ strContext := by
    intro h
    rw [String.ext_iff] at h
    simp [String.data_append, strContext] at h
  have h2 : ("[]" ++ u.str) ≠ strRequest := by
    intro h
    rw [String.ext_iff] at h
    simp [String.data_append, strRequest] at h
  have h3 : ("[]" ++ u.str) ≠ strResponseWriter := by
    intro h
    rw [String.ext_iff] at h
    simp [String.data_append, strResponseWriter] at h
  simp [h1, h2, h3]

/-- C4: two classified parameters with the same input role (context,
raw request, raw response writer, or the default/payload role) make
registration panic with the duplicate-input configuration error, at
whatever pair of positions they occur; the check lives in `classify`,
the registration-time half of `Manager.Handler`, so it never happens
per request. -/
theorem classify_duplicate_input_panics (ins outs : List GoType) (i j : Nat)
    (hij : i < j) (hj : j < (effIns ins).length)
    (hr : inRole ((effIns ins).getD i (.named ""))
        = inRole ((effIns ins).getD j (.named ""))) :
    classify ins outs = .error "hrpc: duplicate input type" := by
  apply classify_error_of_in_dup
  refine not_nodup_of_getD_eq _ (inRole (GoType.named "")) i j hij ?_ ?_
  · simpa using hj
  · rw [List.getD_map, List.getD_map]
    exact hr

/-- Witness for C4: two `context.Context` parameters. -/
theorem classify_duplicate_input_panics_witness :
    0 < 1
    ∧ 1 < (effIns [GoType.named "context.Context", GoType.named "context.Context"]).length
    ∧ inRole ((effIns [GoType.named "context.Context",
          GoType.named "context.Context"]).getD 0 (.named ""))
        = inRole ((effIns [GoType.named "context.Context",
          GoType.named "context.Context"]).getD 1 (.named ""))
    ∧ classify [GoType.named "context.Context", GoType.named "context.Context"] []
        = .error "hrpc: duplicate input type" :=
  ⟨by decide, by decide, by decide,
    classify_duplicate_input_panics
      [GoType.named "context.Context", GoType.named "context.Context"] [] 0 1
      (by decide) (by decide) (by decide)⟩

/-- C5 counterexample: a function with two non-error results does panic
at registration, but the panic is not identified as "duplicate output
type": `setOrPanic` is shared between the input and the output map and
always carries the message `hrpc: duplicate input type`. -/
theorem classify_duplicate_output_message_counterexample :
    classify [] [GoType.named "int", GoType.named "string"]
        = .error "hrpc: duplicate input type"
    ∧ "hrpc: duplicate input type" ≠ "hrpc: duplicate output type" := by
  exact ⟨rfl, by decide⟩

/-- C5 (amended): two return values that both classify to the non-error
output role make registration panic, raised at registration time, never
per request; the panic message, however, is the shared `setOrPanic`
message `hrpc: duplicate input type`, not a distinct "duplicate output
type" identification. -/
theorem classify_duplicate_output_panics (ins outs : List GoType) (i j : Nat)
    (hij : i < j) (hj : j < outs.length)
    (hri : outRole (outs.getD i (.named "")) = .miAny)
    (hrj : outRole (outs.getD j (.named "")) = .miAny) :
    classify ins outs = .error "hrpc: duplicate input type" := by
  apply classify_error_of_out_dup
  refine not_nodup_of_getD_eq _ (outRole (GoType.named "")) i j hij ?_ ?_
  · simpa using hj
  · rw [List.getD_map, List.getD_map, hri, hrj]

/-- Witness for C5 (amended): two non-error results `int` and `string`. -/
theorem classify_duplicate_output_panics_witness :
    0 < 1
    ∧ 1 < ([GoType.named "int", GoType.named "string"] : List GoType).length
    ∧ outRole (([GoType.named "int", GoType.named "string"] : List GoType).getD 0 (.named ""))
        = MapIndex.miAny
    ∧ outRole (([GoType.named "int", GoType.named "string"] : List GoType).getD 1 (.named ""))
        = MapIndex.miAny
    ∧ classify [GoType.named "context.Context"] [GoType.named "int", GoType.named "string"]
        = .error "hrpc: duplicate input type" :=
  ⟨by decide, by decide, by decide, by decide,
    classify_duplicate_output_panics [GoType.named "context.Context"]
      [GoType.named "int", GoType.named "string"] 0 1
      (by decide) (by decide) (by decide) (by decide)⟩

/-- C6: when decode succeeds (and validation, when it runs, passes), the
argument bound to the payload-in slot is: for a by-pointer plan, the
pointer to the very heap address the fresh instance was allocated at and
that Decode received (the decode event of the same trace names that same
address); for a by-value plan, a copy of the instance value as it stands
after Decode and validation ran. -/
theorem dispatch_payload_binding (plan : Plan) (m : Manager ρ π ε ω σ) (zero : π)
    (validOf : Option (π → π × Option ε)) (f : List (GoVal π) → List (OutVal ε ω))
    (r : ρ) (heap : List π) (w : σ) (i : Nat) (v1 v2 : π) (b : Bool)
    (hi : lookupMI plan.mapIn .miAny = some i)
    (hilt : i < plan.numIn)
    (hreq : lookupMI plan.mapIn .miRequest ≠ some i)
    (hrw : lookupMI plan.mapIn .miResponseWriter ≠ some i)
    (hd : m.decoder r zero = (v1, none))
    (hrv : runValidate m.Validate validOf v1 = (v2, none, b)) :
    ∃ args tail,
      (dispatch plan m zero validOf f r heap w).events
        = ([Event.decodeEv heap.length] ++ (if b then [Event.validEv heap.length] else []))
            ++ Event.callEv args :: tail
      ∧ args.getD i .unset
          = (if plan.infPtr then GoVal.ptrTo heap.length else GoVal.ofVal v2) := by
  have hvin : (dispatch plan m zero validOf f r heap w)
      = dispatchRest plan m f r
          ((match lookupMI plan.mapIn .miContext with
            | some j => (List.replicate plan.numIn GoVal.unset).set j GoVal.ctxVal
            | none => List.replicate plan.numIn GoVal.unset).set i
            (if plan.infPtr then GoVal.ptrTo heap.length else GoVal.ofVal v2))
          ([Event.decodeEv heap.length] ++ (if b then [Event.validEv heap.length] else []))
          (((heap ++ [zero]).set heap.length v1).set heap.length v2) w := by
    simp only [dispatch, hi]
    rw [hd]
    simp [hrv]
  rw [hvin]
  refine dispatchRest_spec_getD _ _ _ _ _ _ _ _ i _ hreq hrw ?_
  cases hctx : lookupMI plan.mapIn .miContext <;>
    · refine getD_set_self _ _ _ _ ?_
      simpa using hilt

/-- Witness for C6: the by-value plan, a decoder writing 3 and a `Valid`
method mutating the instance to 4; the handler receives a copy of the
value 4. -/
theorem dispatch_payload_binding_witness :
    lookupMI planVal.mapIn .miAny = some 1
    ∧ 1 < planVal.numIn
    ∧ lookupMI planVal.mapIn .miRequest ≠ some 1
    ∧ lookupMI planVal.mapIn .miResponseWriter ≠ some 1
    ∧ mDecodeOk.decoder 0 0 = (3, none)
    ∧ runValidate mDecodeOk.Validate
        (some (fun v => (v + 1, none)) : Option (Nat → Nat × Option Nat)) 3
        = (4, none, true)
    ∧ ∃ args tail,
        (dispatch planVal mDecodeOk 0
            (some (fun v => (v + 1, none)) : Option (Nat → Nat × Option Nat))
            (fun _ => []) 0 [] 100).events
          = ([Event.decodeEv 0] ++ (if true then [Event.validEv 0] else []))
              ++ Event.callEv args :: tail
        ∧ args.getD 1 .unset
            = (if planVal.infPtr then GoVal.ptrTo 0 else GoVal.ofVal 4) :=
  ⟨by decide, by decide, by decide, by decide, by decide, by decide,
    dispatch_payload_binding planVal mDecodeOk 0
      (some (fun v => (v + 1, none)) : Option (Nat → Nat × Option Nat))
      (fun _ => []) 0 [] 100 1 3 4 true (by decide) (by decide) (by decide)
      (by decide) (by decide) (by decide)⟩

/-- C7: a trailing slice-kind (variadic) parameter is excluded from the
effective arity before it is ever classified: it receives no role and
no bound position, every handler call receives exactly
`parameter count - 1` arguments so the trailing slot is never populated,
the exclusion keys only on the final position (a parameter list whose
last element is not slice-kind loses nothing), and a slice in a
non-final position is classified normally, to the default role. -/
theorem classify_trailing_variadic (ins outs : List GoType) (t : GoType) (p : Plan)
    (hl : ins.getLast? = some (GoType.slice t))
    (hc : classify ins outs = .ok p) :
    p.numIn = ins.length - 1
    ∧ (∀ k j, lookupMI p.mapIn k = some j → j < ins.length - 1)
    ∧ (∀ (ρ2 π2 ε2 ω2 σ2 : Type) (m : Manager ρ2 π2 ε2 ω2 σ2) (zero : π2)
        (validOf : Option (π2 → π2 × Option ε2))
        (f : List (GoVal π2) → List (OutVal ε2 ω2))
        (r : ρ2) (heap : List π2) (w : σ2) (args : List (GoVal π2)),
        Event.callEv args ∈ (dispatch p m zero validOf f r heap w).events →
        args.length = ins.length - 1)
    ∧ (∀ ins2 : List GoType, ins2.getLast?.map GoType.isSlice ≠ some true →
        effIns ins2 = ins2)
    ∧ (∀ u : GoType, inRole (GoType.slice u) = MapIndex.miAny) := by
  have heff : effIns ins = ins.dropLast := by
    unfold effIns
    rw [hl]
    simp [GoType.isSlice]
  have hlen : (effIns ins).length = ins.length - 1 := by
    rw [heff, List.length_dropLast]
  obtain ⟨mIn, mOut, hbIn, hbOut, hpIn, hpOut, hpN⟩ := classify_ok_parts hc
  refine ⟨by rw [hpN, hlen], ?_, ?_, ?_, inRole_slice⟩
  · intro k j hkj
    rw [hpIn] at hkj
    rcases buildMap_ok_lookup hbIn hkj with h1 | ⟨_, _, hlt⟩
    · rw [lookupMI_nil] at h1
      cases h1
    · omega
  · intro ρ2 π2 ε2 ω2 σ2 m zero validOf f r heap w args hmem
    have hcl := dispatch_call_length p m zero validOf f r heap w args hmem
    rw [hcl, hpN, hlen]
  · intro ins2 h2
    unfold effIns
    cases hg : ins2.getLast? with
    | none =>
        cases ins2 with
        | nil => rfl
        | cons x xs => simp [List.getLast?_eq_getLast] at hg
    | some u =>
        have hns : u.isSlice = false := by
          cases hu : u.isSlice
          · rfl
          · exact absurd (by rw [hg]; simp [hu]) h2
        simp [hns]

/-- Witness for C7: the grpc-style signature
`func(ctx context.Context, req *Req, opts ...grpc.CallOption) (*Res, error)`. -/
theorem classify_trailing_variadic_witness :
    ([GoType.named "context.Context", GoType.ptr (GoType.named "Req"),
        GoType.slice (GoType.named "grpc.CallOption")] : List GoType).getLast?
      = some (GoType.slice (GoType.named "grpc.CallOption"))
    ∧ classify
        [GoType.named "context.Context", GoType.ptr (GoType.named "Req"),
          GoType.slice (GoType.named "grpc.CallOption")]
        [GoType.ptr (GoType.named "Res"), GoType.named "error"]
      = Except.ok
          { numIn := 2, mapIn := [(.miAny, 1), (.miContext, 0)],
            mapOut := [(.miError, 1), (.miAny, 0)],
            infType := some (.named "Req"), infPtr := true }
    ∧ ({ numIn := 2, mapIn := [(.miAny, 1), (.miContext, 0)],
          mapOut := [(.miError, 1), (.miAny, 0)],
          infType := some (.named "Req"), infPtr := true } : Plan).numIn
        = ([GoType.named "context.Context", GoType.ptr (GoType.named "Req"),
            GoType.slice (GoType.named "grpc.CallOption")] : List GoType).length - 1 :=
  ⟨by decide, by rfl,
    (classify_trailing_variadic
      [GoType.named "context.Context", GoType.ptr (GoType.named "Req"),
        GoType.slice (GoType.named "grpc.CallOption")]
      [GoType.ptr (GoType.named "Res"), GoType.named "error"]
      (GoType.named "grpc.CallOption")
      { numIn := 2, mapIn := [(.miAny, 1), (.miContext, 0)],
        mapOut := [(.miError, 1), (.miAny, 0)],
        infType := some (.named "Req"), infPtr := true }
      (by decide) (by rfl)).1⟩

/-- C8: a manager with all three collaborators unset substitutes no-op
defaults: the decoder returns a nil error and leaves the destination
value untouched, the two encoders write nothing to the sink, and a
handler registered on such a manager still dispatches: the sink is
never written, a payload plan leaves the heap extended by exactly the
untouched zero-valued instance, a plan without a payload slot leaves the
heap unchanged, and the handler function is always invoked. -/
theorem dispatch_noop_defaults (m : Manager ρ π ε ω σ)
    (hD : m.Decoder = none) (hE : m.Encoder = none) (hEE : m.ErrorEncoder = none)
    (plan : Plan) (zero x : π) (f : List (GoVal π) → List (OutVal ε ω))
    (r : ρ) (heap : List π) (w : σ) (o : OutVal ε ω) (e : ε) :
    m.decoder r x = (x, none)
    ∧ m.encoder w r o = w
    ∧ m.errorEncoder w r e = w
    ∧ (dispatch plan m zero none f r heap w).sink = w
    ∧ (∀ i, lookupMI plan.mapIn .miAny = some i →
        (dispatch plan m zero none f r heap w).heap = heap ++ [zero])
    ∧ (lookupMI plan.mapIn .miAny = none →
        (dispatch plan m zero none f r heap w).heap = heap)
    ∧ (∃ args, Event.callEv args ∈ (dispatch plan m zero none f r heap w).events) := by
  have hdec : ∀ y : π, m.decoder r y = (y, none) := by
    intro y
    simp [Manager.decoder, hD]
  have henc : ∀ (w2 : σ) (o2 : OutVal ε ω), m.encoder w2 r o2 = w2 := by
    intro w2 o2
    simp [Manager.encoder, hE]
  have herr : ∀ (w2 : σ) (e2 : ε), m.errorEncoder w2 r e2 = w2 := by
    intro w2 e2
    simp [Manager.errorEncoder, hEE]
  have hrv : runValidate m.Validate (none : Option (π → π × Option ε)) zero
      = (zero, none, false) := by
    simp [runValidate]
  have key : (dispatch plan m zero none f r heap w).sink = w
      ∧ (∀ i, lookupMI plan.mapIn .miAny = some i →
          (dispatch plan m zero none f r heap w).heap = heap ++ [zero])
      ∧ (lookupMI plan.mapIn .miAny = none →
          (dispatch plan m zero none f r heap w).heap = heap)
      ∧ (∃ args, Event.callEv args ∈ (dispatch plan m zero none f r heap w).events) := by
    cases hAny : lookupMI plan.mapIn .miAny with
    | some i =>
        have hvin : dispatch plan m zero none f r heap w
            = dispatchRest plan m f r
                ((match lookupMI plan.mapIn .miContext with
                  | some j => (List.replicate plan.numIn GoVal.unset).set j GoVal.ctxVal
                  | none => List.replicate plan.numIn GoVal.unset).set i
                  (if plan.infPtr then GoVal.ptrTo heap.length else GoVal.ofVal zero))
                [Event.decodeEv heap.length] (heap ++ [zero]) w := by
          simp only [dispatch, hAny]
          rw [hdec zero]
          simp [hrv, set_append_singleton]
        rw [hvin]
        generalize ((match lookupMI plan.mapIn .miContext with
            | some j => (List.replicate plan.numIn GoVal.unset).set j GoVal.ctxVal
            | none => List.replicate plan.numIn GoVal.unset).set i
            (if plan.infPtr then GoVal.ptrTo heap.length else GoVal.ofVal zero)) = vin
        obtain ⟨tail, hev, hh, hcase⟩ := dispatchRest_spec plan m f r vin
          [Event.decodeEv heap.length] (heap ++ [zero]) w
        refine ⟨?_, ?_, ?_, ?_⟩
        · rcases hcase with ⟨_, hs⟩ | ⟨e2, _, hs⟩ | ⟨v2, _, hs⟩
          · exact hs
          · rw [hs]
            exact herr w e2
          · rw [hs]
            exact henc w v2
        · intro i2 _
          exact hh
        · intro hno
          exact Option.noConfusion hno
        · exact ⟨injectRR plan vin, by rw [hev]; simp⟩
    | none =>
        have hvin : dispatch plan m zero none f r heap w
            = dispatchRest plan m f r
                (match lookupMI plan.mapIn .miContext with
                  | some j => (List.replicate plan.numIn GoVal.unset).set j GoVal.ctxVal
                  | none => List.replicate plan.numIn GoVal.unset)
                [] heap w := by
          simp only [dispatch, hAny]
        rw [hvin]
        generalize (match lookupMI plan.mapIn .miContext with
            | some j => (List.replicate plan.numIn GoVal.unset).set j GoVal.ctxVal
            | none => List.replicate plan.numIn GoVal.unset) = vin
        obtain ⟨tail, hev, hh, hcase⟩ := dispatchRest_spec plan m f r vin [] heap w
        refine ⟨?_, ?_, ?_, ?_⟩
        · rcases hcase with ⟨_, hs⟩ | ⟨e2, _, hs⟩ | ⟨v2, _, hs⟩
          · exact hs
          · rw [hs]
            exact herr w e2
          · rw [hs]
            exact henc w v2
        · intro i2 hi2
          exact Option.noConfusion hi2
        · intro h3
          exact hh
        · exact ⟨injectRR plan vin, by rw [hev]; simp⟩
  exact ⟨hdec x, henc w o, herr w e, key.1, key.2.1, key.2.2.1, key.2.2.2⟩

/-- Witness for C8: the zero-value manager with every collaborator unset. -/
theorem dispatch_noop_defaults_witness :
    ({} : Manager Nat Nat Nat Nat Nat).Decoder = none
    ∧ ({} : Manager Nat Nat Nat Nat Nat).Encoder = none
    ∧ ({} : Manager Nat Nat Nat Nat Nat).ErrorEncoder = none
    ∧ ({} : Manager Nat Nat Nat Nat Nat).decoder 0 42 = (42, none)
    ∧ ({} : Manager Nat Nat Nat Nat Nat).encoder 100 0 (OutVal.val 5) = 100
    ∧ ({} : Manager Nat Nat Nat Nat Nat).errorEncoder 100 0 3 = 100
    ∧ (dispatch planPtr ({} : Manager Nat Nat Nat Nat Nat) 0 none
        (fun _ => []) 0 [] 100).sink = 100
    ∧ (∀ i, lookupMI planPtr.mapIn .miAny = some i →
        (dispatch planPtr ({} : Manager Nat Nat Nat Nat Nat) 0 none
          (fun _ => []) 0 [] 100).heap = [] ++ [0])
    ∧ (lookupMI planPtr.mapIn .miAny = none →
        (dispatch planPtr ({} : Manager Nat Nat Nat Nat Nat) 0 none
          (fun _ => []) 0 [] 100).heap = [])
    ∧ (∃ args, Event.callEv args ∈ (dispatch planPtr ({} : Manager Nat Nat Nat Nat Nat)
        0 none (fun _ => []) 0 [] 100).events) :=
  ⟨rfl, rfl, rfl,
    (dispatch_noop_defaults ({} : Manager Nat Nat Nat Nat Nat) rfl rfl rfl planPtr 0 42
      (fun _ => []) 0 [] 100 (OutVal.val 5) 3).1,
    (dispatch_noop_defaults ({} : Manager Nat Nat Nat Nat Nat) rfl rfl rfl planPtr 0 42
      (fun _ => []) 0 [] 100 (OutVal.val 5) 3).2.1,
    (dispatch_noop_defaults ({} : Manager Nat Nat Nat Nat Nat) rfl rfl rfl planPtr 0 42
      (fun _ => []) 0 [] 100 (OutVal.val 5) 3).2.2.1,
    (dispatch_noop_defaults ({} : Manager Nat Nat Nat Nat Nat) rfl rfl rfl planPtr 0 42
      (fun _ => []) 0 [] 100 (OutVal.val 5) 3).2.2.2.1,
    (dispatch_noop_defaults ({} : Manager Nat Nat Nat Nat Nat) rfl rfl rfl planPtr 0 42
      (fun _ => []) 0 [] 100 (OutVal.val 5) 3).2.2.2.2.1,
    (dispatch_noop_defaults ({} : Manager Nat Nat Nat Nat Nat) rfl rfl rfl planPtr 0 42
      (fun _ => []) 0 [] 100 (OutVal.val 5) 3).2.2.2.2.2.1,
    (dispatch_noop_defaults ({} : Manager Nat Nat Nat Nat Nat) rfl rfl rfl planPtr 0 42
      (fun _ => []) 0 [] 100 (OutVal.val 5) 3).2.2.2.2.2.2⟩

/-- C9: every dispatch through a plan with a payload-in slot allocates
its own fresh zero-valued payload instance before calling Decode: the
decode event names address `heap.length`, one past every instance
allocated by earlier dispatches, it is the only decode event of the
trace, the heap grows by exactly one instance, and any dispatch run
afterwards on the resulting heap decodes at a different (strictly
larger) address, so two dispatches never share a payload instance and
mutation of one instance cannot affect the other dispatch. -/
theorem dispatch_fresh_payload (plan : Plan) (m : Manager ρ π ε ω σ) (zero : π)
    (validOf : Option (π → π × Option ε)) (f : List (GoVal π) → List (OutVal ε ω))
    (r : ρ) (heap : List π) (w : σ) (i : Nat)
    (hi : lookupMI plan.mapIn .miAny = some i) :
    Event.decodeEv heap.length ∈ (dispatch plan m zero validOf f r heap w).events
    ∧ (∀ a, Event.decodeEv a ∈ (dispatch plan m zero validOf f r heap w).events →
        a = heap.length)
    ∧ (dispatch plan m zero validOf f r heap w).heap.length = heap.length + 1
    ∧ (∀ (r2 : ρ) (w2 : σ) (a : Nat),
        Event.decodeEv a ∈ (dispatch plan m zero validOf f r2
            (dispatch plan m zero validOf f r heap w).heap w2).events →
        a ≠ heap.length) := by
  obtain ⟨rest, hev, hcnt, hlen⟩ := dispatch_payload_shape plan m zero validOf f r heap w i hi
  have hmem : ∀ a, Event.decodeEv a ∈ (dispatch plan m zero validOf f r heap w).events →
      a = heap.length := by
    intro a ha
    rw [hev] at ha
    rcases List.mem_cons.mp ha with h1 | h2
    · exact Event.decodeEv.inj h1
    · have hfalse := List.countP_eq_zero.mp hcnt _ h2
      simp [Event.isDecode] at hfalse
  refine ⟨by rw [hev]; exact List.mem_cons_self _ _, hmem, hlen, ?_⟩
  intro r2 w2 a ha
  obtain ⟨rest2, hev2, hcnt2, _⟩ := dispatch_payload_shape plan m zero validOf f r2
    ((dispatch plan m zero validOf f r heap w).heap) w2 i hi
  rw [hev2] at ha
  rcases List.mem_cons.mp ha with h1 | hmem2
  · have ha2 := Event.decodeEv.inj h1
    rw [ha2, hlen]
    omega
  · have hfalse := List.countP_eq_zero.mp hcnt2 _ hmem2
    simp [Event.isDecode] at hfalse

/-- Witness for C9: two back-to-back dispatches of the test-suite plan
on the default manager. -/
theorem dispatch_fresh_payload_witness :
    lookupMI planPtr.mapIn .miAny = some 1
    ∧ (Event.decodeEv 0 ∈ (dispatch planPtr ({} : Manager Nat Nat Nat Nat Nat) 0 none
          (fun _ => []) 0 [] 0).events
        ∧ (∀ a, Event.decodeEv a ∈ (dispatch planPtr ({} : Manager Nat Nat Nat Nat Nat)
            0 none (fun _ => []) 0 [] 0).events → a = 0)
        ∧ (dispatch planPtr ({} : Manager Nat Nat Nat Nat Nat) 0 none
            (fun _ => []) 0 [] 0).heap.length = 0 + 1
        ∧ (∀ (r2 : Nat) (w2 : Nat) (a : Nat),
            Event.decodeEv a ∈ (dispatch planPtr ({} : Manager Nat Nat Nat Nat Nat) 0 none
                (fun _ => []) r2
                (dispatch planPtr ({} : Manager Nat Nat Nat Nat Nat) 0 none
                  (fun _ => []) 0 [] 0).heap w2).events →
            a ≠ 0)) :=
  ⟨by decide,
    dispatch_fresh_payload planPtr ({} : Manager Nat Nat Nat Nat Nat) 0 none
      (fun _ => []) 0 [] 0 1 (by decide)⟩

/-- C10 counterexample: `func(ctx context.Context, req []int) error` — a
trailing non-variadic slice intended as the payload.  Registration
succeeds with no payload slot, and each dispatch reaches `fv.Call` with
a single assembled argument, one fewer than the declared parameter
count 2; but `reflect.Value.Call` rejects 1 argument for a non-variadic
function of declared arity 2 (`reflectCallOk 2 false 1 = false`) and
panics with "reflect: Call with too few input arguments", so the
wrapped handler is never invoked: the claim's final conjunct, "the
handler is invoked with one fewer argument than its declared parameter
count", fails on this input. -/
theorem classify_trailing_slice_call_counterexample :
    classify [GoType.named "context.Context", GoType.slice (GoType.named "int")]
        [GoType.named "error"]
      = Except.ok
          { numIn := 1, mapIn := [(.miContext, 0)], mapOut := [(.miError, 0)],
            infType := none, infPtr := false }
    ∧ (dispatch
          { numIn := 1, mapIn := [(.miContext, 0)], mapOut := [(.miError, 0)],
            infType := none, infPtr := false }
          ({} : Manager Nat Nat Nat Nat Nat) 0 none (fun _ => []) 0 [] 0).events
        = [Event.callEv [GoVal.ctxVal]]
    ∧ ([GoVal.ctxVal] : List (GoVal Nat)).length
        = ([GoType.named "context.Context", GoType.slice (GoType.named "int")] :
            List GoType).length - 1
    ∧ reflectCallOk
        ([GoType.named "context.Context", GoType.slice (GoType.named "int")] :
          List GoType).length false
        ([GoVal.ctxVal] : List (GoVal Nat)).length = false := by
  exact ⟨by rfl, by rfl, by decide, by decide⟩

/-- C10 (amended): the trailing-position exclusion keys on slice kind
only, never on variadicity: a handler whose final parameter is a
non-variadic slice (here: the only candidate payload parameter) gets a
plan with no payload-in slot and Decode is never invoked on any of its
dispatches; the dispatcher then assembles an argument list with exactly
one entry fewer than the declared parameter count and hands it to
`reflect.Value.Call` — which, the function being non-variadic, rejects
that count (`reflectCallOk` is false) and panics per request, so the
handler body itself is never invoked. -/
theorem classify_trailing_slice_no_payload (ins outs : List GoType) (t : GoType) (p : Plan)
    (hl : ins.getLast? = some (GoType.slice t))
    (hno : MapIndex.miAny ∉ (ins.dropLast).map inRole)
    (hc : classify ins outs = .ok p) :
    lookupMI p.mapIn .miAny = none
    ∧ reflectCallOk ins.length false (ins.length - 1) = false
    ∧ (∀ (ρ2 π2 ε2 ω2 σ2 : Type) (m : Manager ρ2 π2 ε2 ω2 σ2) (zero : π2)
        (validOf : Option (π2 → π2 × Option ε2))
        (f : List (GoVal π2) → List (OutVal ε2 ω2)) (r : ρ2) (heap : List π2) (w : σ2),
        ((dispatch p m zero validOf f r heap w).events).countP Event.isDecode = 0
        ∧ ∃ args tail, (dispatch p m zero validOf f r heap w).events
            = Event.callEv args :: tail
          ∧ args.length = ins.length - 1
          ∧ reflectCallOk ins.length false args.length = false) := by
  have heff : effIns ins = ins.dropLast := by
    unfold effIns
    rw [hl]
    simp [GoType.isSlice]
  have hne : ins ≠ [] := by
    intro h
    rw [h] at hl
    simp at hl
  have hpos : 0 < ins.length := List.length_pos.mpr hne
  have hcallno : reflectCallOk ins.length false (ins.length - 1) = false := by
    simp only [reflectCallOk, if_neg Bool.false_ne_true, decide_eq_false_iff_not]
    omega
  obtain ⟨mIn, mOut, hbIn, hbOut, hpIn, hpOut, hpN⟩ := classify_ok_parts hc
  have hn2 : MapIndex.miAny ∉ (effIns ins).map inRole := by
    rw [heff]
    exact hno
  have hnone : lookupMI p.mapIn .miAny = none := by
    rw [hpIn, buildMap_ok_lookup_not_mem hbIn hn2]
    rfl
  refine ⟨hnone, hcallno, ?_⟩
  intro ρ2 π2 ε2 ω2 σ2 m zero validOf f r heap w
  refine ⟨(dispatch_no_payload_shape p m zero validOf f r heap w hnone).1, ?_⟩
  have hshape : ∃ args tail, (dispatch p m zero validOf f r heap w).events
      = Event.callEv args :: tail := by
    simp only [dispatch, hnone]
    obtain ⟨tail, hev, _, _⟩ := dispatchRest_spec p m f r
      (match lookupMI p.mapIn .miContext with
        | some j => (List.replicate p.numIn GoVal.unset).set j GoVal.ctxVal
        | none => List.replicate p.numIn GoVal.unset) [] heap w
    exact ⟨injectRR p
        (match lookupMI p.mapIn .miContext with
          | some j => (List.replicate p.numIn GoVal.unset).set j GoVal.ctxVal
          | none => List.replicate p.numIn GoVal.unset),
      tail, by rw [hev]; simp⟩
  obtain ⟨args, tail, hev⟩ := hshape
  have hmem : Event.callEv args ∈ (dispatch p m zero validOf f r heap w).events := by
    rw [hev]
    exact List.mem_cons_self _ _
  have hcl := dispatch_call_length p m zero validOf f r heap w args hmem
  have hal : args.length = ins.length - 1 := by
    rw [hcl, hpN, heff, List.length_dropLast]
  exact ⟨args, tail, hev, hal, by rw [hal]; exact hcallno⟩

/-- Witness for C10 (amended): `func(ctx context.Context, req []int) error`
— the trailing non-variadic slice is silently excluded, no payload slot
exists, and the assembled argument count fails the `reflect.Value.Call`
check for the declared arity. -/
theorem classify_trailing_slice_no_payload_witness :
    ([GoType.named "context.Context", GoType.slice (GoType.named "int")] :
        List GoType).getLast? = some (GoType.slice (GoType.named "int"))
    ∧ MapIndex.miAny ∉ (([GoType.named "context.Context",
        GoType.slice (GoType.named "int")] : List GoType).dropLast).map inRole
    ∧ classify [GoType.named "context.Context", GoType.slice (GoType.named "int")]
        [GoType.named "error"]
      = Except.ok
          { numIn := 1, mapIn := [(.miContext, 0)], mapOut := [(.miError, 0)],
            infType := none, infPtr := false }
    ∧ (lookupMI
        ({ numIn := 1, mapIn := [(.miContext, 0)], mapOut := [(.miError, 0)],
           infType := none, infPtr := false } : Plan).mapIn .miAny = none
        ∧ reflectCallOk ([GoType.named "context.Context",
            GoType.slice (GoType.named "int")] : List GoType).length false
            (([GoType.named "context.Context",
              GoType.slice (GoType.named "int")] : List GoType).length - 1) = false
        ∧ (∀ (ρ2 π2 ε2 ω2 σ2 : Type) (m : Manager ρ2 π2 ε2 ω2 σ2) (zero : π2)
            (validOf : Option (π2 → π2 × Option ε2))
            (f : List (GoVal π2) → List (OutVal ε2 ω2)) (r : ρ2) (heap : List π2) (w : σ2),
            ((dispatch
                { numIn := 1, mapIn := [(.miContext, 0)],
                  mapOut := [(.miError, 0)], infType := none, infPtr := false }
                m zero validOf f r heap w).events).countP Event.isDecode = 0
            ∧ ∃ args tail, (dispatch
                { numIn := 1, mapIn := [(.miContext, 0)],
                  mapOut := [(.miError, 0)], infType := none, infPtr := false }
                m zero validOf f r heap w).events
                = Event.callEv args :: tail
              ∧ args.length = ([GoType.named "context.Context",
                  GoType.slice (GoType.named "int")] : List GoType).length - 1
              ∧ reflectCallOk ([GoType.named "context.Context",
                  GoType.slice (GoType.named "int")] : List GoType).length false
                  args.length = false)) :=
  ⟨by decide, by decide, by rfl,
    classify_trailing_slice_no_payload
      [GoType.named "context.Context", GoType.slice (GoType.named "int")]
      [GoType.named "error"] (GoType.named "int")
      { numIn := 1, mapIn := [(.miContext, 0)], mapOut := [(.miError, 0)],
        infType := none, infPtr := false }
      (by decide) (by decide) (by rfl)⟩

end Hrpc
